import Mathlib

/-!
Verification of the baby-tracker data pipeline
(src/pipeline/data_pipeline.py and src/models/children.py).

The pipeline is a linear load - clean - validate - transform/aggregate
chain over one tabular file per child.  The definitions below are a
shallow embedding of that code: pandas DataFrames become `Table`
(a header plus rows of typed cells), pydantic validation becomes a
total function returning `Except`, timestamps become a calendar day
number plus a second-of-day, and float arithmetic on integral data is
carried out exactly in `Rat`.
-/

deriving instance DecidableEq for Except

namespace BabyPipeline

/-! ### Timestamps

`pd.Timestamp` values are modelled as a calendar day number (days since
an arbitrary epoch) together with the second of that day.  The date of
birth is always a plain date, i.e. a midnight timestamp, as built by
`pd.Timestamp(dob)` from `ChildConfig.dob : date`. -/

structure Timestamp where
  day : Int
  sec : Nat
deriving DecidableEq

/-- Embeds `(df.index - self.dob).days`: the timedelta in seconds,
floor-divided by the number of seconds in a day (pandas `.days` is the
floor of the timedelta in whole days). -/
def ageInDays (t : Timestamp) (dob : Int) : Int :=
  ((t.day * 86400 + (t.sec : Int)) - dob * 86400).ediv 86400

/-- Embeds `df.index - self.dob` followed by `age.days // 7`. -/
def ageInWeeks (t : Timestamp) (dob : Int) : Int :=
  (ageInDays t dob).ediv 7

/-- Hour component of a time of day, as `datetime.time.hour`. -/
def hourOf (sec : Nat) : Nat := sec / 3600

/-- Minute component of a time of day, as `datetime.time.minute`. -/
def minuteOf (sec : Nat) : Nat := sec % 3600 / 60

/-- Embeds `x.hour + x.minute / 60` (Python true division, carried out
exactly over the rationals). -/
def hoursFrac (sec : Nat) : ℚ := (hourOf sec : ℚ) + (minuteOf sec : ℚ) / 60

/-- Embeds `np.where((hours >= 22.5) | (hours < 6.5), 'Night', 'Day')`. -/
def nightOrDay (sec : Nat) : String :=
  if (22.5 : ℚ) ≤ hoursFrac sec ∨ hoursFrac sec < (6.5 : ℚ) then "Night" else "Day"

/-- Zero padding used by `strftime` two-digit fields. -/
def pad2 (n : Nat) : String := if n < 10 then "0" ++ toString n else toString n

/-- Embeds `df.index.strftime('%I:%M %p')` (12-hour clock with AM/PM). -/
def fmt12 (sec : Nat) : String :=
  let h := hourOf sec
  let h12 := if h % 12 = 0 then 12 else h % 12
  pad2 h12 ++ ":" ++ pad2 (minuteOf sec) ++ " " ++ (if h < 12 then "AM" else "PM")

/-! ### Tables

A DataFrame is a list of column names and a list of rows of typed
cells; the dtypes that actually occur in this pipeline are strings,
integers and timestamps. -/

inductive Cell where
  | str (s : String)
  | int (n : Int)
  | time (t : Timestamp)
deriving DecidableEq

structure Table where
  header : List String
  rows : List (List Cell)
deriving DecidableEq

/-- The pipeline error conditions: `FileNotFoundError` and
`ValueError("Unsupported file type ...")` raised by `_load_data`,
`KeyError` raised by `DataFrame.drop`/column access on a missing label,
and the `AttributeError` raised by the `.str` accessor on a
non-string column. -/
inductive PipeError where
  | fileNotFound
  | unsupportedFileType
  | keyError (column : String)
  | strAccessor
deriving DecidableEq

/-! ### Cleaner (`_clean_data`) -/

/-- ASCII lower-casing of one character, as `str.lower` acts on the
ASCII column labels of this data set. -/
def lowerChar (c : Char) : Char :=
  if 65 ≤ c.toNat ∧ c.toNat ≤ 90 then Char.ofNat (c.toNat + 32) else c

/-- Embeds `df.columns.str.lower()` on one label. -/
def lowerStr (s : String) : String := String.mk (s.data.map lowerChar)

/-- Embeds `df.rename(columns={'details': 'feed_volume_ml', 'start': 'feed_start_time'})`
applied after lower-casing. -/
def renameCol (h : String) : String :=
  if h = "details" then "feed_volume_ml"
  else if h = "start" then "feed_start_time"
  else h

/-- The scan behind `drop_duplicates()`: keep a row when it has not
been seen before. -/
def dedupAux (seen : List (List Cell)) : List (List Cell) → List (List Cell)
  | [] => []
  | r :: rs => if r ∈ seen then dedupAux seen rs else r :: dedupAux (r :: seen) rs

/-- Embeds `df.drop_duplicates()` (keep the first occurrence of each
exact-duplicate row). -/
def dedupRows (l : List (List Cell)) : List (List Cell) := dedupAux [] l

/-- The first contiguous run of digits in a character list, i.e. the
match of the regular expression `(\d+)`. -/
def firstDigitRun : List Char → List Char
  | [] => []
  | c :: rest => if c.isDigit then c :: rest.takeWhile Char.isDigit
                 else firstDigitRun rest

/-- Numeric value of a digit string, as `astype(int)` parses it. -/
def digitsToNat (ds : List Char) : Nat :=
  ds.foldl (fun a c => a * 10 + (c.toNat - 48)) 0

/-- Embeds `.str.extract(r'(\d+)').fillna('0')` followed by
`astype(int)`: the first digit run parsed as an integer, and `0` when
the text holds no digit (the `fillna('0')` branch, since
`int('0') = 0 = digitsToNat []`). -/
def digitsVal (s : String) : Int := (digitsToNat (firstDigitRun s.data) : Int)

/-- The `.str` accessor: defined only on a column of strings
(`AttributeError` otherwise). -/
def strCol : List Cell → Option (List String)
  | [] => some []
  | Cell.str s :: cs => (strCol cs).map (s :: ·)
  | _ :: _ => none

/-- New header after `drop(columns='Finish')` at position `j`,
`df.columns.str.lower()` and the rename map. -/
def cleanHeader (hd : List String) (j : Nat) : List String :=
  ((hd.eraseIdx j).map lowerStr).map renameCol

/-- Embeds `_clean_data`: drop duplicate rows, drop the `Finish`
column (`KeyError` when absent, as `DataFrame.drop` raises by
default), lower-case and rename the labels, then extract the first
digit run of the `feed_volume_ml` column as an integer (`.str` raises
when that column is not a string column). -/
def cleanData (df : Table) : Except PipeError Table :=
  match df.header.findIdx? (· = "Finish") with
  | none => .error (.keyError "Finish")
  | some j =>
    match (cleanHeader df.header j).findIdx? (· = "feed_volume_ml") with
    | none => .error (.keyError "feed_volume_ml")
    | some k =>
      match strCol (((dedupRows df.rows).map (fun r => r.eraseIdx j)).map
          (fun r => r.getD k (.int 0))) with
      | none => .error .strAccessor
      | some ss =>
        .ok ⟨cleanHeader df.header j,
             (((dedupRows df.rows).map (fun r => r.eraseIdx j)).zip ss).map
               (fun p => p.1.set k (.int (digitsVal p.2)))⟩

/-! ### Validator (`_validate_inputs` with the pydantic model `FeedingData`)

`FeedingData` declares, in order: `feed_start_time : datetime`,
`activity : Activity`, `type : ActivityType`,
`feed_volume_ml : float = Field(ge=0)`, `units : str = Field(default='ml')`.
Pydantic validates every field and collects one error per violated
field; the embedding returns either the validated record or the
non-empty error list. -/

/-- The values of the `Activity` enum. -/
def activityValues : List String := ["Feeding"]

/-- The values of the `ActivityType` enum. -/
def activityTypeValues : List String := ["Left", "Right", "Bottle"]

/-- One pydantic error: `loc` (the field) and `msg`. -/
structure FieldError where
  loc : String
  msg : String
deriving DecidableEq

/-- The pydantic v2 message for a violated `Field(ge=0)` constraint. -/
def geMsg : String := "Input should be greater than or equal to 0"

/-- A validated `FeedingData` record as serialised by
`model_dump(mode='json')` (enum values as strings).  The cleaned data
always carries integral volumes, so `feed_volume_ml` is kept as an
integer. -/
structure FeedRecord where
  feed_start_time : Timestamp
  activity : String
  type : String
  feed_volume_ml : Int
  units : String
deriving DecidableEq

/-- A row of the cleaned table as produced by `df.to_dict('records')`. -/
def RecordDict := List (String × Cell)

instance : DecidableEq RecordDict := inferInstanceAs (DecidableEq (List (String × Cell)))

instance : Membership RecordDict (List RecordDict) :=
  inferInstanceAs (Membership (List (String × Cell)) (List (List (String × Cell))))

def checkStartTime (rec : RecordDict) : Except FieldError Timestamp :=
  match List.lookup "feed_start_time" rec with
  | some (.time t) => .ok t
  | some _ => .error ⟨"feed_start_time", "Input should be a valid datetime"⟩
  | none => .error ⟨"feed_start_time", "Field required"⟩

def checkActivity (rec : RecordDict) : Except FieldError String :=
  match List.lookup "activity" rec with
  | some (.str s) =>
    if s ∈ activityValues then .ok s
    else .error ⟨"activity", "Input should be 'Feeding'"⟩
  | some _ => .error ⟨"activity", "Input should be 'Feeding'"⟩
  | none => .error ⟨"activity", "Field required"⟩

def checkType (rec : RecordDict) : Except FieldError String :=
  match List.lookup "type" rec with
  | some (.str s) =>
    if s ∈ activityTypeValues then .ok s
    else .error ⟨"type", "Input should be 'Left', 'Right' or 'Bottle'"⟩
  | some _ => .error ⟨"type", "Input should be 'Left', 'Right' or 'Bottle'"⟩
  | none => .error ⟨"type", "Field required"⟩

def checkVolume (rec : RecordDict) : Except FieldError Int :=
  match List.lookup "feed_volume_ml" rec with
  | some (.int n) => if 0 ≤ n then .ok n else .error ⟨"feed_volume_ml", geMsg⟩
  | some _ => .error ⟨"feed_volume_ml", "Input should be a valid number"⟩
  | none => .error ⟨"feed_volume_ml", "Field required"⟩

def checkUnits (rec : RecordDict) : Except FieldError String :=
  match List.lookup "units" rec with
  | some (.str s) => .ok s
  | some _ => .error ⟨"units", "Input should be a valid string"⟩
  | none => .ok "ml"

/-- The error of one field check, if any. -/
def errOf {α : Type} : Except FieldError α → List FieldError
  | .ok _ => []
  | .error e => [e]

/-- Pydantic validation of one row: all field checks run, and either
every field passed and the record is built, or the errors are
collected in field-declaration order. -/
def validateRow (rec : RecordDict) : Except (List FieldError) FeedRecord :=
  match checkStartTime rec, checkActivity rec, checkType rec,
        checkVolume rec, checkUnits rec with
  | .ok t, .ok a, .ok y, .ok v, .ok u => .ok ⟨t, a, y, v, u⟩
  | st, act, ty, vol, un =>
    .error (errOf st ++ errOf act ++ errOf ty ++ errOf vol ++ errOf un)

/-- One line of the report built in the `except ValidationError` arm:
numbered from 1, `"<n>) <field>: <message>"`, joined by newlines. -/
def detailsOf (errs : List FieldError) : String :=
  String.intercalate "\n"
    (errs.enum.map (fun p => toString (p.1 + 1) ++ ") " ++ p.2.loc ++ ": " ++ p.2.msg))

/-- The error record appended for a row that failed validation: the
original row values plus `total_errors` and `error_details`. -/
structure ErrRecord where
  original : RecordDict
  total_errors : Nat
  error_details : String
deriving DecidableEq

def mkErrRecord (rec : RecordDict) (errs : List FieldError) : ErrRecord :=
  ⟨rec, errs.length, detailsOf errs⟩

/-- The row loop of `_validate_inputs`: each row is validated on its
own, successes are appended to the valid list and failures to the
error list, in input order. -/
def validateRecs : List RecordDict → List FeedRecord × List ErrRecord
  | [] => ([], [])
  | r :: rs =>
    let rest := validateRecs rs
    match validateRow r with
    | .ok f => (f :: rest.1, rest.2)
    | .error errs => (rest.1, mkErrRecord r errs :: rest.2)

/-- Embeds `df.to_dict('records')`. -/
def toRecords (df : Table) : List RecordDict := df.rows.map (df.header.zip ·)

/-- Embeds `_validate_inputs` up to its two output tables
(`df_validated`, `error_df`); the printed summary is a logging side
effect with no data flow. -/
def validateInputs (df : Table) : List FeedRecord × List ErrRecord :=
  validateRecs (toRecords df)

/-! ### Feature transformer (`_transform_data`, column additions)

`_transform_data` adds the columns `name`, `age_in_weeks`,
`age_in_days`, `time`, `time_str` and `night_or_day` to the validated
frame in place. -/

/-- A validated row after enrichment. -/
structure ERow where
  feed_start_time : Timestamp
  activity : String
  type : String
  feed_volume_ml : Int
  units : String
  name : String
  age_in_weeks : Int
  age_in_days : Int
  time : Nat
  time_str : String
  night_or_day : String
deriving DecidableEq

/-- The per-row effect of the column assignments of `_transform_data`. -/
def enrichRow (name : String) (dob : Int) (f : FeedRecord) : ERow :=
  { feed_start_time := f.feed_start_time
    activity := f.activity
    type := f.type
    feed_volume_ml := f.feed_volume_ml
    units := f.units
    name := name
    age_in_weeks := ageInWeeks f.feed_start_time dob
    age_in_days := ageInDays f.feed_start_time dob
    time := f.feed_start_time.sec
    time_str := fmt12 f.feed_start_time.sec
    night_or_day := nightOrDay f.feed_start_time.sec }

/-! ### Daily aggregate (`df.resample('D').agg(...)`)

`resample('D')` produces one bin per calendar day of the closed range
from the earliest to the latest day of the index, including days with
no records; `first` of an empty bin is missing (NaN), `sum` is 0,
`count` is 0 and `mean` is NaN.  Missing values are `none`. -/

structure DailyRow where
  day : Int
  name : Option String
  age_in_days : Option Int
  age_in_weeks : Option Int
  daily_feed_volume_ml : Int
  feeds_per_day : Nat
  average_intake_per_feed : Option ℚ
  age_in_months : Option ℚ
deriving DecidableEq

/-- Day of one enriched row (the calendar day of its index value). -/
def dayOf (r : ERow) : Int := r.feed_start_time.day

/-- Earliest day of the index (0 for an empty frame, unused there). -/
def minD : List ERow → Int
  | [] => 0
  | r :: rs => rs.foldl (fun a x => min a (dayOf x)) (dayOf r)

/-- Latest day of the index. -/
def maxD : List ERow → Int
  | [] => 0
  | r :: rs => rs.foldl (fun a x => max a (dayOf x)) (dayOf r)

/-- The resampling bins: every calendar day from `minD` to `maxD`
inclusive; none for an empty frame. -/
def dailyBins (es : List ERow) : List Int :=
  match es with
  | [] => []
  | _ :: _ =>
    (List.range ((maxD es - minD es).toNat + 1)).map (fun i : Nat => minD es + (i : Int))

/-- One aggregated bin: `first` of name and ages, `sum`, `count` and
`mean` of `feed_volume_ml` over the rows of that day, in frame order. -/
def binRow (es : List ERow) (d : Int) : DailyRow :=
  let g := es.filter (fun r => dayOf r = d)
  let total := (g.map (·.feed_volume_ml)).sum
  { day := d
    name := g.head?.map (·.name)
    age_in_days := g.head?.map (·.age_in_days)
    age_in_weeks := g.head?.map (·.age_in_weeks)
    daily_feed_volume_ml := total
    feeds_per_day := g.length
    average_intake_per_feed :=
      if g.length = 0 then none else some ((total : ℚ) / (g.length : ℚ))
    age_in_months := none }

/-- `daily_fd['age_in_months'] = daily_fd['age_in_days'] / 30.4375`. -/
def addMonths (r : DailyRow) : DailyRow :=
  { r with age_in_months := r.age_in_days.map (fun a => (a : ℚ) / (30.4375 : ℚ)) }

/-- Ordering used by `sort_values(by='age_in_days')`: ascending, with
missing values placed last (the default `na_position='last'`). -/
def optLE (a b : Option Int) : Prop :=
  match a, b with
  | some x, some y => x ≤ y
  | some _, none => True
  | none, some _ => False
  | none, none => True

instance decOptLE : ∀ a b, Decidable (optLE a b) := fun a b =>
  match a, b with
  | some x, some y => inferInstanceAs (Decidable (x ≤ y))
  | some _, none => inferInstanceAs (Decidable True)
  | none, some _ => inferInstanceAs (Decidable False)
  | none, none => inferInstanceAs (Decidable True)

def leDaily (a b : DailyRow) : Prop := optLE a.age_in_days b.age_in_days

instance decLeDaily : DecidableRel leDaily := fun a b => decOptLE _ _

instance totalLeDaily : IsTotal DailyRow leDaily :=
  ⟨fun a b => by
    unfold leDaily optLE
    rcases a.age_in_days with _ | x <;> rcases b.age_in_days with _ | y <;> simp
    exact Int.le_total x y⟩

instance transLeDaily : IsTrans DailyRow leDaily :=
  ⟨fun a b c => by
    unfold leDaily optLE
    rcases a.age_in_days with _ | x <;> rcases b.age_in_days with _ | y <;>
      rcases c.age_in_days with _ | z <;> simp
    exact fun h h2 => le_trans h h2⟩

/-- Embeds the daily branch of `_transform_data`: resample by day,
aggregate, drop the last bin, add `age_in_months`, sort by
`age_in_days`. -/
def dailyData (es : List ERow) : List DailyRow :=
  let fd := (dailyBins es).map (binRow es)
  let fd := fd.dropLast
  let fd := fd.map addMonths
  List.insertionSort leDaily fd

/-! ### Weekly night-vs-day aggregate

`df.groupby(['age_in_weeks', 'night_or_day']).agg(...)` with the
default `sort=True`, then a per-week total via
`transform('sum')` and the text label
`f"{vol:,.0f}mL<br>({(vol/tot)*100:.0f}%)"`. -/

structure WeeklyRow where
  age_in_weeks : Int
  night_or_day : String
  name : String
  total_feed_volume_ml : Int
  feeds_count : Nat
  text_label : String
deriving DecidableEq

/-- Lexicographic code-point comparison of two character lists, the
order Python string comparison uses. -/
def charListLt : List Char → List Char → Bool
  | [], [] => false
  | [], _ :: _ => true
  | _ :: _, [] => false
  | a :: as, b :: bs => if a < b then true else if b < a then false else charListLt as bs

/-- Python string less-than. -/
def strLt (a b : String) : Bool := charListLt a.data b.data

/-- Group-key order of `groupby(..., sort=True)`: lexicographic on
the pair (week ascending, then the period string ascending). -/
def pairLE (p q : Int × String) : Prop :=
  p.1 < q.1 ∨ (p.1 = q.1 ∧ strLt q.2 p.2 = false)

instance decPairLE : DecidableRel pairLE := fun p q =>
  inferInstanceAs (Decidable (p.1 < q.1 ∨ (p.1 = q.1 ∧ strLt q.2 p.2 = false)))

/-- The distinct group keys observed, in groupby order. -/
def weeklyKeys (es : List ERow) : List (Int × String) :=
  List.insertionSort pairLE ((es.map (fun r => (r.age_in_weeks, r.night_or_day))).eraseDups)

/-- One aggregated group: `first` of name, `sum` and `count` of
volume; `text_label` is attached afterwards. -/
def weeklyAggRow (es : List ERow) (k : Int × String) : WeeklyRow :=
  let g := es.filter (fun r => r.age_in_weeks = k.1 ∧ r.night_or_day = k.2)
  { age_in_weeks := k.1
    night_or_day := k.2
    name := (g.head?.map (·.name)).getD ""
    total_feed_volume_ml := (g.map (·.feed_volume_ml)).sum
    feeds_count := g.length
    text_label := "" }

/-- The aggregate before labels (`weekly_df` after `reset_index()`). -/
def weeklyRows0 (es : List ERow) : List WeeklyRow :=
  (weeklyKeys es).map (weeklyAggRow es)

/-- `transform('sum')` of `total_feed_volume_ml` over `age_in_weeks`
for one row of `weekly_df`. -/
def weekTotalIn (ws : List WeeklyRow) (wk : Int) : Int :=
  ((ws.filter (fun w => w.age_in_weeks = wk)).map (·.total_feed_volume_ml)).sum

/-- Thousands grouping of a digit string given reversed, as the `,`
option of Python number formatting inserts it: a separator before
every third digit counted from the rightmost one. -/
def commaGroupsAux (i : Nat) : List Char → List Char
  | [] => []
  | c :: rest =>
    if i % 3 = 0 ∧ i ≠ 0 then ',' :: c :: commaGroupsAux (i + 1) rest
    else c :: commaGroupsAux (i + 1) rest

def commaGroups (l : List Char) : List Char := commaGroupsAux 0 l

/-- `f"{n:,.0f}"` for the integral values this pipeline sums. -/
def fmtCommas (n : Int) : String :=
  let ds := (commaGroups (toString n.natAbs).data.reverse).reverse
  (if n < 0 then "-" else "") ++ String.mk ds

/-- Round half to even, the rounding of Python `format(x, '.0f')`,
carried out exactly over the rationals. -/
def roundHalfEven (q : ℚ) : Int :=
  let f := q - (⌊q⌋ : ℚ)
  if f < 1/2 then ⌊q⌋
  else if 1/2 < f then ⌊q⌋ + 1
  else if 2 ∣ ⌊q⌋ then ⌊q⌋ else ⌊q⌋ + 1

/-- `f"{(vol/tot)*100:.0f}"`: the percentage figure of the label.
`vol/tot` is IEEE division of the two sums, so a zero week total
yields `nan` (or a signed infinity for a non-zero numerator); the
finite case is carried out exactly over the rationals. -/
def pctStr (vol tot : Int) : String :=
  if tot = 0 then (if vol = 0 then "nan" else if 0 < vol then "inf" else "-inf")
  else toString (roundHalfEven ((vol : ℚ) / (tot : ℚ) * 100))

/-- `f"{vol:,.0f}mL<br>({(vol/tot)*100:.0f}%)"`. -/
def textLabel (vol tot : Int) : String :=
  fmtCommas vol ++ "mL<br>(" ++ pctStr vol tot ++ "%)"

/-- Embeds the weekly branch of `_transform_data`: group, aggregate,
compute each row's week total and attach the label row by row. -/
def weeklyData (es : List ERow) : List WeeklyRow :=
  let ws := weeklyRows0 es
  ws.map (fun w =>
    { w with text_label := textLabel w.total_feed_volume_ml (weekTotalIn ws w.age_in_weeks) })

/-! ### Loader and the `process` run (`_load_data`, `process`)

The loader depends on the file system only through whether the source
path exists and what its extension is; both are part of the modelled
input.  The pipeline object state is a small heap of frames plus the
output fields, so that the in-place mutation of the validated frame by
`_transform_data` is explicit: the validated and the transformed
output are references into the heap. -/

structure LoadInput where
  fileExists : Bool
  suffix : String
  raw : Table
deriving DecidableEq

/-- Embeds `_load_data`: `FileNotFoundError` when the path does not
exist, then dispatch on the lower-cased extension, with a
`ValueError` for an unknown one. -/
def loadData (inp : LoadInput) : Except PipeError Table :=
  if ¬ inp.fileExists then .error .fileNotFound
  else if lowerStr inp.suffix = ".xls" ∨ lowerStr inp.suffix = ".xlsx" then .ok inp.raw
  else if lowerStr inp.suffix = ".csv" then .ok inp.raw
  else .error .unsupportedFileType

/-- A DataFrame held by the pipeline object: the validated frame, or
that same frame after the in-place enrichment. -/
inductive Frame where
  | validated (rows : List FeedRecord)
  | enriched (rows : List ERow)
deriving DecidableEq

/-- The mutable fields of the `DataPipeline` object.  `validatedRef`
and `transformedRef` are references (heap positions), because
`self.transformed_data = df` aliases the object `self.validated_data`
already points to. -/
structure PLState where
  heap : List Frame
  rawData : Option Table
  validatedRef : Option Nat
  transformedRef : Option Nat
  dailyData : Option (List DailyRow)
  weeklyData : Option (List WeeklyRow)
  inputDataErrors : Option (List ErrRecord)
deriving DecidableEq

/-- The freshly constructed object: every table field is `None`. -/
def initState : PLState := ⟨[], none, none, none, none, none, none⟩

/-- Embeds `_transform_data`: reads the frame the given reference
points to, writes the enriched frame back over it (the column
assignments mutate in place), then sets `transformed_data` to that
same reference and computes the two aggregates.  `process` only calls
it on the reference to the freshly validated frame. -/
def transformStep (name : String) (dob : Int) (s : PLState) (i : Nat) : PLState :=
  match s.heap.get? i with
  | some (.validated rows) =>
    let ers := rows.map (enrichRow name dob)
    { s with heap := s.heap.set i (.enriched ers)
             transformedRef := some i
             dailyData := some (dailyData ers)
             weeklyData := some (weeklyData ers) }
  | _ => s

/-- Embeds `process`: load, clean, validate, transform, with a fatal
error propagated to the caller and the object state at that point
returned alongside. -/
def runProcess (name : String) (dob : Int) (inp : LoadInput) :
    PLState × Option PipeError :=
  match loadData inp with
  | .error e => (initState, some e)
  | .ok df =>
    let s1 : PLState := { initState with rawData := some df }
    match cleanData df with
    | .error e => (s1, some e)
    | .ok cdf =>
      let vr := validateInputs cdf
      let i := s1.heap.length
      let s2 : PLState :=
        { s1 with heap := s1.heap ++ [Frame.validated vr.1]
                  inputDataErrors := some vr.2
                  validatedRef := some i }
      (transformStep name dob s2 i, none)

/-! ### Facts about the derived fields -/

/-- The timedelta day count is exactly the calendar day difference, for
any second-of-day. -/
theorem ageInDays_eq_day_sub (t : Timestamp) (dob : Int) (h : t.sec < 86400) :
    ageInDays t dob = t.day - dob := by
  unfold ageInDays
  have he : t.day * 86400 + (t.sec : Int) - dob * 86400
      = (t.sec : Int) + 86400 * (t.day - dob) := by ring
  have h0 : (t.sec : ℤ).ediv 86400 = 0 :=
    Int.ediv_eq_zero_of_lt (by positivity) (by exact_mod_cast h)
  rw [he,
    show ((t.sec : ℤ) + 86400 * (t.day - dob)).ediv 86400
        = (t.sec : ℤ).ediv 86400 + (t.day - dob) from
      Int.add_mul_ediv_left _ _ (by norm_num),
    h0, zero_add]

/-- C4: for every enriched record, `age_in_days` equals
`(start_time.date - dob).days` exactly as an integer with no rounding
(the floor of the offset from `dob` to `start_time` in whole days),
and `age_in_weeks` equals `age_in_days // 7`. -/
theorem C4_age_in_days_exact (t : Timestamp) (dob : Int) (h : t.sec < 86400) :
    ageInDays t dob = t.day - dob ∧ ageInWeeks t dob = (ageInDays t dob).ediv 7 :=
  ⟨ageInDays_eq_day_sub t dob h, rfl⟩

/-- Witness for C4 at a concrete record: five days and 08:20 after an
epoch, date of birth two days after the epoch. -/
theorem C4_age_in_days_exact_witness :
    (Timestamp.mk 5 30000).sec < 86400
    ∧ (ageInDays ⟨5, 30000⟩ 2 = 5 - 2
        ∧ ageInWeeks ⟨5, 30000⟩ 2 = (ageInDays ⟨5, 30000⟩ 2).ediv 7) :=
  ⟨by decide, C4_age_in_days_exact ⟨5, 30000⟩ 2 (by decide)⟩

/-- C3: `night_or_day` is `Night` exactly when the fractional hour
`hour + minute/60` is at least 22.5 or below 6.5, `Day` otherwise;
22:30:00 is Night, 06:30:00 is Day and 06:29:59 is Night. -/
theorem C3_night_or_day_boundary :
    (∀ s : Nat, nightOrDay s = "Night"
        ↔ ((22.5 : ℚ) ≤ hoursFrac s ∨ hoursFrac s < (6.5 : ℚ)))
  ∧ (∀ s : Nat, nightOrDay s = "Day"
        ↔ ¬ ((22.5 : ℚ) ≤ hoursFrac s ∨ hoursFrac s < (6.5 : ℚ)))
  ∧ nightOrDay (22 * 3600 + 30 * 60) = "Night"
  ∧ nightOrDay (6 * 3600 + 30 * 60) = "Day"
  ∧ nightOrDay (6 * 3600 + 29 * 60 + 59) = "Night" := by
  refine ⟨fun s => ?_, fun s => ?_, ?_, ?_, ?_⟩
  · unfold nightOrDay
    split
    · next h => exact iff_of_true rfl h
    · next h => exact iff_of_false (by decide) h
  · unfold nightOrDay
    split
    · next h => exact iff_of_false (by decide) (not_not_intro h)
    · next h => exact iff_of_true rfl h
  · show nightOrDay 81000 = "Night"
    have : hoursFrac 81000 = 22 + (30 : ℚ) / 60 := by
      unfold hoursFrac hourOf minuteOf; norm_num
    unfold nightOrDay
    rw [this]
    norm_num
  · show nightOrDay 23400 = "Day"
    have : hoursFrac 23400 = 6 + (30 : ℚ) / 60 := by
      unfold hoursFrac hourOf minuteOf; norm_num
    unfold nightOrDay
    rw [this]
    norm_num
  · show nightOrDay 23399 = "Night"
    have : hoursFrac 23399 = 6 + (29 : ℚ) / 60 := by
      unfold hoursFrac hourOf minuteOf; norm_num
    unfold nightOrDay
    rw [this]
    norm_num

/-! ### Facts about the validator -/

lemma errOf_ok {α : Type} (v : α) : errOf (.ok v) = ([] : List FieldError) := rfl

lemma errOf_error {α : Type} (e : FieldError) :
    errOf (α := α) (.error e) = [e] := rfl

/-- When every field check passes, the record is built from the
checked values. -/
lemma validateRow_ok_of_checks (rec : RecordDict) (t : Timestamp) (a y : String)
    (v : Int) (u : String)
    (hst : checkStartTime rec = .ok t) (hac : checkActivity rec = .ok a)
    (hty : checkType rec = .ok y) (hvo : checkVolume rec = .ok v)
    (hun : checkUnits rec = .ok u) :
    validateRow rec = .ok ⟨t, a, y, v, u⟩ := by
  unfold validateRow
  rw [hst, hac, hty, hvo, hun]

/-- Inversion for a failed row: the error list is the concatenation of
the per-field errors and is never empty. -/
lemma validateRow_error_spec (rec : RecordDict) (l : List FieldError)
    (h : validateRow rec = .error l) :
    l = errOf (checkStartTime rec) ++ errOf (checkActivity rec) ++ errOf (checkType rec)
      ++ errOf (checkVolume rec) ++ errOf (checkUnits rec) ∧ l ≠ [] := by
  unfold validateRow at h
  rcases hst : checkStartTime rec with e1 | t <;> rw [hst] at h <;>
    rcases hac : checkActivity rec with e2 | a <;> rw [hac] at h <;>
    rcases hty : checkType rec with e3 | y <;> rw [hty] at h <;>
    rcases hvo : checkVolume rec with e4 | v <;> rw [hvo] at h <;>
    rcases hun : checkUnits rec with e5 | u <;> rw [hun] at h <;>
    simp only [errOf, Except.error.injEq, List.append_nil, List.nil_append,
      List.append_assoc, List.cons_append] at h ⊢ <;>
    first
      | exact absurd h (by simp)
      | (subst h; constructor <;> simp)

/-- A validated record always satisfies the `ge=0` volume constraint. -/
lemma checkVolume_ok_nonneg (rec : RecordDict) (v : Int)
    (h : checkVolume rec = .ok v) : 0 ≤ v := by
  unfold checkVolume at h
  split at h
  · split at h
    · cases h
      assumption
    · exact Except.noConfusion h
  · exact Except.noConfusion h
  · exact Except.noConfusion h

/-- A valid record has a non-negative volume. -/
lemma validateRow_ok_nonneg (rec : RecordDict) (f : FeedRecord)
    (h : validateRow rec = .ok f) : 0 ≤ f.feed_volume_ml := by
  unfold validateRow at h
  rcases hst : checkStartTime rec with e1 | t <;> rw [hst] at h <;>
    rcases hac : checkActivity rec with e2 | a <;> rw [hac] at h <;>
    rcases hty : checkType rec with e3 | y <;> rw [hty] at h <;>
    rcases hvo : checkVolume rec with e4 | v <;> rw [hvo] at h <;>
    rcases hun : checkUnits rec with e5 | u <;> rw [hun] at h <;>
    first
      | exact Except.noConfusion h
      | (cases h; exact checkVolume_ok_nonneg rec v hvo)

lemma validateRecs_cons_ok (r : RecordDict) (rs : List RecordDict) (f : FeedRecord)
    (h : validateRow r = .ok f) :
    validateRecs (r :: rs) = (f :: (validateRecs rs).1, (validateRecs rs).2) := by
  simp [validateRecs, h]

lemma validateRecs_cons_err (r : RecordDict) (rs : List RecordDict) (l : List FieldError)
    (h : validateRow r = .error l) :
    validateRecs (r :: rs)
      = ((validateRecs rs).1, mkErrRecord r l :: (validateRecs rs).2) := by
  simp [validateRecs, h]

lemma validateRecs_append (xs ys : List RecordDict) :
    validateRecs (xs ++ ys)
      = ((validateRecs xs).1 ++ (validateRecs ys).1,
         (validateRecs xs).2 ++ (validateRecs ys).2) := by
  induction xs with
  | nil => simp [validateRecs]
  | cons r rs ih =>
    cases hv : validateRow r
    · rw [List.cons_append, validateRecs_cons_err _ _ _ hv,
        validateRecs_cons_err _ _ _ hv, ih]
      simp
    · rw [List.cons_append, validateRecs_cons_ok _ _ _ hv,
        validateRecs_cons_ok _ _ _ hv, ih]
      simp

lemma validateRecs_fst_eq (rs : List RecordDict) :
    (validateRecs rs).1 = rs.filterMap (fun r => (validateRow r).toOption) := by
  induction rs with
  | nil => rfl
  | cons r rs ih =>
    cases hv : validateRow r
    · rw [validateRecs_cons_err _ _ _ hv, List.filterMap_cons]
      simp [hv, Except.toOption, ih]
    · rw [validateRecs_cons_ok _ _ _ hv, List.filterMap_cons]
      simp [hv, Except.toOption, ih]

lemma validateRecs_snd_eq (rs : List RecordDict) :
    (validateRecs rs).2 = rs.filterMap (fun r =>
      match validateRow r with
      | .error l => some (mkErrRecord r l)
      | .ok _ => none) := by
  induction rs with
  | nil => rfl
  | cons r rs ih =>
    cases hv : validateRow r
    · rw [validateRecs_cons_err _ _ _ hv, List.filterMap_cons]
      simp [hv, ih]
    · rw [validateRecs_cons_ok _ _ _ hv, List.filterMap_cons]
      simp [hv, ih]

lemma validateRecs_length (rs : List RecordDict) :
    (validateRecs rs).1.length + (validateRecs rs).2.length = rs.length := by
  induction rs with
  | nil => rfl
  | cons r rs ih =>
    cases hv : validateRow r
    · rw [validateRecs_cons_err _ _ _ hv]
      simp only [List.length_cons]
      omega
    · rw [validateRecs_cons_ok _ _ _ hv]
      simp only [List.length_cons]
      omega

/-- C1: validation processes each row independently and partitions the
rows: the valid and the error outputs are row-wise images of the
input, their lengths add up to the row count, every error record
carries the original row with `total_errors >= 1` and one numbered
entry per violated constraint, and a failing row leaves the handling
of all other rows unchanged (no exception escapes: `validateRow` is
total and each row lands in exactly one output). -/
theorem C1_validator_partitions (df : Table) :
    ((validateInputs df).1.length + (validateInputs df).2.length = df.rows.length)
  ∧ ((validateInputs df).1
        = (toRecords df).filterMap (fun r => (validateRow r).toOption))
  ∧ ((validateInputs df).2
        = (toRecords df).filterMap (fun r =>
            match validateRow r with
            | .error l => some (mkErrRecord r l)
            | .ok _ => none))
  ∧ (∀ er, er ∈ (validateInputs df).2 →
        er.original ∈ toRecords df
        ∧ 1 ≤ er.total_errors
        ∧ ∃ l, validateRow er.original = .error l ∧ l ≠ []
            ∧ er.total_errors = l.length ∧ er.error_details = detailsOf l)
  ∧ (∀ (pre post : List RecordDict) (r : RecordDict) (l : List FieldError),
        validateRow r = .error l →
        validateRecs (pre ++ r :: post)
          = ((validateRecs pre).1 ++ (validateRecs post).1,
             (validateRecs pre).2 ++ mkErrRecord r l :: (validateRecs post).2)) := by
  have hlen : (toRecords df).length = df.rows.length := by
    simp [toRecords]
  refine ⟨by rw [← hlen]; exact validateRecs_length _,
    validateRecs_fst_eq _, validateRecs_snd_eq _, ?_, ?_⟩
  · intro er her
    rw [show (validateInputs df).2 = (validateRecs (toRecords df)).2 from rfl,
      validateRecs_snd_eq] at her
    rcases List.mem_filterMap.mp her with ⟨r, hr, hg⟩
    rcases hv : validateRow r with l | f
    · rw [hv] at hg
      cases hg
      rcases validateRow_error_spec r l hv with ⟨_, hne⟩
      refine ⟨hr, ?_, l, hv, hne, rfl, rfl⟩
      have := List.length_pos.mpr hne
      simp only [mkErrRecord]
      omega
    · rw [hv] at hg
      cases hg
  · intro pre post r l hv
    rw [validateRecs_append, validateRecs_cons_err _ _ _ hv]

lemma checkVolume_of_neg (rec : RecordDict) (n : Int)
    (hl : List.lookup "feed_volume_ml" rec = some (.int n)) (hn : n < 0) :
    checkVolume rec = .error ⟨"feed_volume_ml", geMsg⟩ := by
  unfold checkVolume
  rw [hl]
  simp only []
  rw [if_neg (Int.not_le.mpr hn)]

lemma checkVolume_of_nonneg (rec : RecordDict) (n : Int)
    (hl : List.lookup "feed_volume_ml" rec = some (.int n)) (hn : 0 ≤ n) :
    checkVolume rec = .ok n := by
  unfold checkVolume
  rw [hl]
  simp only []
  rw [if_pos hn]

/-- A row that fails only on the volume produces exactly the one
`ge`-constraint error. -/
lemma validateRow_volume_only_error (rec : RecordDict) (t : Timestamp) (a y u : String)
    (hst : checkStartTime rec = .ok t) (hac : checkActivity rec = .ok a)
    (hty : checkType rec = .ok y) (hun : checkUnits rec = .ok u)
    (hvo : checkVolume rec = .error ⟨"feed_volume_ml", geMsg⟩) :
    validateRow rec = .error [⟨"feed_volume_ml", geMsg⟩] := by
  unfold validateRow
  rw [hst, hac, hty, hvo, hun]
  rfl

/-- C5: a row with feed volume -5 (and every other field valid) fails
validation with exactly one error entry stating the greater-than-or-
equal-to-0 constraint and `total_errors = 1`; every validated and
every transformed row has a non-negative volume; and a row with a
negative volume always lands in the error table. -/
theorem C5_negative_volume_rejected :
    (∀ (rec : RecordDict) (t : Timestamp) (a y u : String),
        checkStartTime rec = .ok t → checkActivity rec = .ok a →
        checkType rec = .ok y → checkUnits rec = .ok u →
        List.lookup "feed_volume_ml" rec = some (.int (-5)) →
        validateRow rec = .error [⟨"feed_volume_ml", geMsg⟩]
        ∧ (mkErrRecord rec [⟨"feed_volume_ml", geMsg⟩]).total_errors = 1
        ∧ (mkErrRecord rec [⟨"feed_volume_ml", geMsg⟩]).error_details
            = "1) feed_volume_ml: " ++ geMsg)
  ∧ (∀ (rec : RecordDict) (f : FeedRecord),
        validateRow rec = .ok f → 0 ≤ f.feed_volume_ml)
  ∧ (∀ (name : String) (dob : Int) (df : Table),
        ∀ er ∈ (validateInputs df).1.map (enrichRow name dob), 0 ≤ er.feed_volume_ml)
  ∧ (∀ (df : Table) (rec : RecordDict) (n : Int),
        rec ∈ toRecords df →
        List.lookup "feed_volume_ml" rec = some (.int n) → n < 0 →
        (∃ er ∈ (validateInputs df).2, er.original = rec)
        ∧ ∀ f ∈ (validateInputs df).1, validateRow rec ≠ .ok f) := by
  refine ⟨?_, validateRow_ok_nonneg, ?_, ?_⟩
  · intro rec t a y u hst hac hty hun hl
    exact ⟨validateRow_volume_only_error rec t a y u hst hac hty hun
        (checkVolume_of_neg rec (-5) hl (by norm_num)), rfl, rfl⟩
  · intro name dob df er her
    rcases List.mem_map.mp her with ⟨f, hf, hef⟩
    rw [show (validateInputs df).1 = (validateRecs (toRecords df)).1 from rfl,
      validateRecs_fst_eq] at hf
    rcases List.mem_filterMap.mp hf with ⟨r, _, hg⟩
    rcases hv : validateRow r with l | f0
    · rw [hv] at hg
      exact absurd hg (by simp [Except.toOption])
    · rw [hv] at hg
      have : f0 = f := by simpa [Except.toOption] using hg
      subst this
      have h0 := validateRow_ok_nonneg r f0 hv
      rw [← hef]
      simpa [enrichRow] using h0
  · intro df rec n hrec hl hn
    have herr : ∃ l, validateRow rec = .error l := by
      rcases hv : validateRow rec with l | f
      · exact ⟨l, rfl⟩
      · exfalso
        have h0 : checkVolume rec = .ok f.feed_volume_ml := by
          unfold validateRow at hv
          rcases hst : checkStartTime rec with e1 | t <;> rw [hst] at hv <;>
            rcases hac : checkActivity rec with e2 | a <;> rw [hac] at hv <;>
            rcases hty : checkType rec with e3 | y <;> rw [hty] at hv <;>
            rcases hvo : checkVolume rec with e4 | v <;> rw [hvo] at hv <;>
            rcases hun : checkUnits rec with e5 | u <;> rw [hun] at hv <;>
            first
              | exact Except.noConfusion hv
              | (cases hv; rfl)
        rw [checkVolume_of_neg rec n hl hn] at h0
        exact Except.noConfusion h0
    rcases herr with ⟨l, hv⟩
    constructor
    · refine ⟨mkErrRecord rec l, ?_, rfl⟩
      rw [show (validateInputs df).2 = (validateRecs (toRecords df)).2 from rfl,
        validateRecs_snd_eq]
      exact List.mem_filterMap.mpr ⟨rec, hrec, by rw [hv]⟩
    · intro f _ hok
      rw [hv] at hok
      exact Except.noConfusion hok

/-! ### Facts about the cleaner -/

lemma firstDigitRun_of_no_digit (l : List Char) (h : ∀ c ∈ l, c.isDigit = false) :
    firstDigitRun l = [] := by
  induction l with
  | nil => rfl
  | cons c cs ih =>
    unfold firstDigitRun
    rw [if_neg (by simp [h c (List.mem_cons_self c cs)])]
    exact ih (fun x hx => h x (List.mem_cons_of_mem c hx))

lemma takeWhile_digits_append (ds post : List Char)
    (h : ∀ c ∈ ds, c.isDigit = true)
    (hp : ∀ c, post.head? = some c → c.isDigit = false) :
    (ds ++ post).takeWhile Char.isDigit = ds := by
  induction ds with
  | nil =>
    cases post with
    | nil => rfl
    | cons p ps =>
      simp only [List.nil_append, List.takeWhile_cons]
      rw [hp p rfl]
      rfl
  | cons d ds ih =>
    simp only [List.cons_append, List.takeWhile_cons]
    rw [h d (List.mem_cons_self d ds)]
    simp only [ite_true]
    rw [ih (fun x hx => h x (List.mem_cons_of_mem d hx))]

lemma firstDigitRun_spec (pre run post : List Char) (hrun : run ≠ [])
    (hpre : ∀ c ∈ pre, c.isDigit = false)
    (hr : ∀ c ∈ run, c.isDigit = true)
    (hp : ∀ c, post.head? = some c → c.isDigit = false) :
    firstDigitRun (pre ++ run ++ post) = run := by
  induction pre with
  | nil =>
    cases run with
    | nil => exact absurd rfl hrun
    | cons d ds =>
      simp only [List.nil_append, List.cons_append]
      unfold firstDigitRun
      rw [if_pos (hr d (List.mem_cons_self d ds))]
      rw [takeWhile_digits_append ds post
        (fun x hx => hr x (List.mem_cons_of_mem d hx)) hp]
  | cons p pre ih =>
    simp only [List.cons_append]
    unfold firstDigitRun
    rw [if_neg (by simp [hpre p (List.mem_cons_self p pre)])]
    exact ih (fun x hx => hpre x (List.mem_cons_of_mem p hx))

lemma dedupAux_of_disjoint : ∀ (l seen : List (List Cell)),
    (∀ r ∈ l, r ∉ seen) → l.Nodup → dedupAux seen l = l
  | [], _, _, _ => rfl
  | r :: rs, seen, hs, h => by
    rw [dedupAux, if_neg (hs r (List.mem_cons_self r rs))]
    congr 1
    refine dedupAux_of_disjoint rs (r :: seen) ?_ (List.nodup_cons.mp h).2
    intro x hx hmem
    rcases List.mem_cons.mp hmem with he | hseen
    · exact (List.nodup_cons.mp h).1 (he ▸ hx)
    · exact hs x (List.mem_cons_of_mem r hx) hseen

lemma dedupRows_of_nodup (l : List (List Cell)) (h : l.Nodup) : dedupRows l = l :=
  dedupAux_of_disjoint l [] (by simp) h

lemma strCol_map {α : Type} (l : List α) (f : α → String) :
    strCol (l.map (fun e => Cell.str (f e))) = some (l.map f) := by
  induction l with
  | nil => rfl
  | cons e es ih =>
    simp only [List.map_cons, strCol, ih]
    rfl

/-- One raw row of the source file: start and end timestamps, the
activity and its subtype, and the free-text quantity field. -/
structure RawEntry where
  start : Timestamp
  finish : Timestamp
  activity : String
  type : String
  details : String
deriving DecidableEq

def rawRowOf (e : RawEntry) : List Cell :=
  [.time e.start, .time e.finish, .str e.activity, .str e.type, .str e.details]

/-- A raw table in the column layout of the source export. -/
def mkRawTable (entries : List RawEntry) : Table :=
  ⟨["Start", "Finish", "Activity", "Type", "Details"], entries.map rawRowOf⟩

/-- The cleaned row corresponding to one raw entry. -/
def cleanRowOf (e : RawEntry) : List Cell :=
  [.time e.start, .str e.activity, .str e.type, .int (digitsVal e.details)]

/-- Running `_clean_data` on a duplicate-free raw table succeeds and
per row extracts the first digit run of the details text as the
integer volume. -/
lemma cleanData_mkRawTable (entries : List RawEntry)
    (h : (entries.map rawRowOf).Nodup) :
    cleanData (mkRawTable entries)
      = .ok ⟨["feed_start_time", "activity", "type", "feed_volume_ml"],
             entries.map cleanRowOf⟩ := by
  have h1 : (mkRawTable entries).header.findIdx? (· = "Finish") = some 1 := rfl
  have h2 : cleanHeader (mkRawTable entries).header 1
      = ["feed_start_time", "activity", "type", "feed_volume_ml"] := rfl
  have h3 : (["feed_start_time", "activity", "type", "feed_volume_ml"] :
      List String).findIdx? (· = "feed_volume_ml") = some 3 := rfl
  have hded : dedupRows (mkRawTable entries).rows = entries.map rawRowOf :=
    dedupRows_of_nodup _ h
  have hrows2 : (entries.map rawRowOf).map (fun r => r.eraseIdx 1)
      = entries.map (fun e =>
          [Cell.time e.start, .str e.activity, .str e.type, .str e.details]) := by
    rw [List.map_map]
    rfl
  have hgetd : (entries.map (fun e =>
        [Cell.time e.start, .str e.activity, .str e.type, .str e.details])).map
        (fun r => r.getD 3 (.int 0))
      = entries.map (fun e => Cell.str e.details) := by
    rw [List.map_map]
    rfl
  have hsc : strCol ((entries.map (fun e =>
        [Cell.time e.start, .str e.activity, .str e.type, .str e.details])).map
        (fun r => r.getD 3 (.int 0)))
      = some (entries.map (·.details)) := by
    rw [hgetd]
    exact strCol_map entries (·.details)
  simp only [cleanData, h1, h2, h3, hded, hrows2, hsc]
  congr 1
  rw [show entries.map (·.details) = entries.map (fun e => e.details) from rfl,
    List.zip_map', List.map_map]
  rfl

/-- C9: text with no digits cleans to volume 0 without an error, text
with digits cleans to the value of its first contiguous digit run,
the cleaning of a well-formed raw table always succeeds with exactly
those volumes, and a volume of 0 passes validation when the other
fields are valid. -/
theorem C9_no_digit_text_cleans_to_zero :
    (∀ s : String, (∀ c ∈ s.data, c.isDigit = false) → digitsVal s = 0)
  ∧ (∀ (pre run post : List Char), run ≠ [] →
        (∀ c ∈ pre, c.isDigit = false) → (∀ c ∈ run, c.isDigit = true) →
        (∀ c, post.head? = some c → c.isDigit = false) →
        digitsVal (String.mk (pre ++ run ++ post)) = (digitsToNat run : Int))
  ∧ (∀ entries : List RawEntry, (entries.map rawRowOf).Nodup →
        cleanData (mkRawTable entries)
          = .ok ⟨["feed_start_time", "activity", "type", "feed_volume_ml"],
                 entries.map cleanRowOf⟩)
  ∧ (∀ (rec : RecordDict) (t : Timestamp) (a y u : String),
        checkStartTime rec = .ok t → checkActivity rec = .ok a →
        checkType rec = .ok y → checkUnits rec = .ok u →
        List.lookup "feed_volume_ml" rec = some (.int 0) →
        validateRow rec = .ok ⟨t, a, y, 0, u⟩) := by
  refine ⟨?_, ?_, cleanData_mkRawTable, ?_⟩
  · intro s hs
    unfold digitsVal
    rw [firstDigitRun_of_no_digit s.data hs]
    rfl
  · intro pre run post hrun hpre hr hp
    unfold digitsVal
    rw [show (String.mk (pre ++ run ++ post)).data = pre ++ run ++ post from rfl,
      firstDigitRun_spec pre run post hrun hpre hr hp]
  · intro rec t a y u hst hac hty hun hl
    exact validateRow_ok_of_checks rec t a y 0 u hst hac hty
      (checkVolume_of_nonneg rec 0 hl le_rfl) hun

/-! ### C6: loader failure modes -/

/-- C6: a missing source path fails the run with the file-not-found
error, an existing path with an unrecognised extension fails it with
the unsupported-file-type error, both are returned to the caller
uncaught, and in both cases the pipeline state is the fresh state, in
which every output table is unpopulated. -/
theorem C6_loader_failures_are_fatal :
    (∀ (name : String) (dob : Int) (inp : LoadInput), inp.fileExists = false →
        runProcess name dob inp = (initState, some .fileNotFound))
  ∧ (∀ (name : String) (dob : Int) (inp : LoadInput), inp.fileExists = true →
        lowerStr inp.suffix ∉ ([".xls", ".xlsx", ".csv"] : List String) →
        runProcess name dob inp = (initState, some .unsupportedFileType))
  ∧ (initState.rawData = none ∧ initState.validatedRef = none
      ∧ initState.transformedRef = none ∧ initState.dailyData = none
      ∧ initState.weeklyData = none ∧ initState.inputDataErrors = none) := by
  refine ⟨?_, ?_, rfl, rfl, rfl, rfl, rfl, rfl⟩
  · intro name dob inp h
    simp [runProcess, loadData, h]
  · intro name dob inp h hm
    simp only [List.mem_cons, List.not_mem_nil, or_false, not_or] at hm
    rcases hm with ⟨h1, h2, h3⟩
    simp [runProcess, loadData, h, h1, h2, h3]

/-! ### C7: the cleaner is not re-runnable on its own output -/

lemma lowerChar_ne_F (c : Char) : lowerChar c ≠ 'F' := by
  unfold lowerChar
  split
  · next h =>
    rcases h with ⟨h1, h2⟩
    intro he
    have : (Char.ofNat (c.toNat + 32)).toNat = 70 := by rw [he]; rfl
    interval_cases hn : c.toNat <;> revert this <;> decide
  · next h =>
    intro he
    exact h (by rw [he]; exact ⟨by decide, by decide⟩)

lemma lowerStr_ne_Finish (s : String) : lowerStr s ≠ "Finish" := by
  intro h
  have hd : (s.data.map lowerChar) = "Finish".data := congrArg String.data h
  rw [show "Finish".data = ['F', 'i', 'n', 'i', 's', 'h'] from rfl] at hd
  cases hs : s.data with
  | nil => rw [hs] at hd; exact List.noConfusion hd
  | cons c cs =>
    rw [hs, List.map_cons] at hd
    exact lowerChar_ne_F c (List.head_eq_of_cons_eq hd)

lemma renameCol_lowerStr_ne_Finish (s : String) : renameCol (lowerStr s) ≠ "Finish" := by
  unfold renameCol
  split
  · decide
  · split
    · decide
    · exact lowerStr_ne_Finish s

/-- The header written by a successful clean never contains the
dropped end-timestamp label. -/
lemma cleanData_header (df out : Table) (h : cleanData df = .ok out) :
    "Finish" ∉ out.header := by
  unfold cleanData at h
  split at h
  · exact Except.noConfusion h
  · split at h
    · exact Except.noConfusion h
    · split at h
      · exact Except.noConfusion h
      · cases h
        intro hmem
        simp only [cleanHeader, List.map_map, List.mem_map] at hmem
        rcases hmem with ⟨x, _, hx⟩
        exact renameCol_lowerStr_ne_Finish x hx

/-- C7 (amended): the Cleaner is not idempotent; a second run on any
output of a successful clean raises the `KeyError` for the already
dropped `Finish` column instead of returning its input unchanged. -/
theorem C7_cleaner_not_idempotent (df out : Table) (h : cleanData df = .ok out) :
    cleanData out = .error (.keyError "Finish") := by
  have hno : out.header.findIdx? (· = "Finish") = none := by
    rw [List.findIdx?_eq_none_iff]
    intro x hx
    by_contra hc
    simp only [Bool.not_eq_false, decide_eq_true_eq] at hc
    exact cleanData_header df out h (hc ▸ hx)
  unfold cleanData
  rw [hno]

/-- The raw table of the counterexample run. -/
def rawC7 : Table :=
  { header := ["Start", "Finish", "Activity", "Type", "Details"]
    rows := [[Cell.time ⟨0, 28800⟩, Cell.time ⟨0, 30000⟩, Cell.str "Feeding",
              Cell.str "Bottle", Cell.str "150ml"]] }

/-- The table the first clean of `rawC7` returns. -/
def cleanedC7 : Table :=
  { header := ["feed_start_time", "activity", "type", "feed_volume_ml"]
    rows := [[Cell.time ⟨0, 28800⟩, Cell.str "Feeding", Cell.str "Bottle",
              Cell.int 150]] }

/-- C7 counterexample: cleaning this one-row table succeeds, but
cleaning its own output does not succeed and return it unchanged - it
fails with the `KeyError` for the missing `Finish` column. -/
theorem C7_counterexample :
    cleanData rawC7 = .ok cleanedC7
    ∧ cleanData cleanedC7 = .error (.keyError "Finish") := by
  constructor
  · rfl
  · rfl

/-- The raw table of the witness run for the amended claim. -/
def rawC7w : Table :=
  { header := ["Start", "Finish", "Activity", "Type", "Details"]
    rows := [[Cell.time ⟨2, 3600⟩, Cell.time ⟨2, 3700⟩, Cell.str "Feeding",
              Cell.str "Left", Cell.str "no volume"]] }

/-- Witness for the amended C7 at a concrete table. -/
theorem C7_cleaner_not_idempotent_witness :
    cleanData rawC7w
      = .ok ⟨["feed_start_time", "activity", "type", "feed_volume_ml"],
             [[Cell.time ⟨2, 3600⟩, Cell.str "Feeding", Cell.str "Left", Cell.int 0]]⟩
    ∧ cleanData ⟨["feed_start_time", "activity", "type", "feed_volume_ml"],
             [[Cell.time ⟨2, 3600⟩, Cell.str "Feeding", Cell.str "Left", Cell.int 0]]⟩
        = .error (.keyError "Finish") :=
  ⟨by rfl, C7_cleaner_not_idempotent rawC7w _ (by rfl)⟩

/-! ### C10: the transformer mutates the validated frame in place -/

/-- A successful run in closed form: one heap cell, aliased by both
references, holding the enriched frame. -/
lemma runProcess_ok_spec (name : String) (dob : Int) (inp : LoadInput)
    (df cdf : Table)
    (hload : loadData inp = .ok df) (hclean : cleanData df = .ok cdf) :
    runProcess name dob inp
      = ({ heap := [Frame.enriched ((validateInputs cdf).1.map (enrichRow name dob))]
           rawData := some df
           validatedRef := some 0
           transformedRef := some 0
           dailyData := some (dailyData ((validateInputs cdf).1.map (enrichRow name dob)))
           weeklyData := some (weeklyData ((validateInputs cdf).1.map (enrichRow name dob)))
           inputDataErrors := some (validateInputs cdf).2 }, none) := by
  simp only [runProcess, hload, hclean]
  rfl

/-- C10: after a successful `process`, the validated-data output and
the transformed-data output are the same table (the transformer
mutated the validated frame in place), so the validated output also
carries every enrichment column with its computed value. -/
theorem C10_validated_output_is_transformed_output (name : String) (dob : Int)
    (inp : LoadInput) (h : (runProcess name dob inp).2 = none) :
    ((runProcess name dob inp).1.validatedRef
        = (runProcess name dob inp).1.transformedRef)
    ∧ ∃ i rows,
        (runProcess name dob inp).1.validatedRef = some i
        ∧ (runProcess name dob inp).1.heap.get? i = some (.enriched rows)
        ∧ (runProcess name dob inp).1.dailyData = some (dailyData rows)
        ∧ (runProcess name dob inp).1.weeklyData = some (weeklyData rows)
        ∧ ∀ r ∈ rows, r.name = name
            ∧ r.age_in_days = ageInDays r.feed_start_time dob
            ∧ r.age_in_weeks = ageInWeeks r.feed_start_time dob
            ∧ r.time = r.feed_start_time.sec
            ∧ r.time_str = fmt12 r.feed_start_time.sec
            ∧ r.night_or_day = nightOrDay r.feed_start_time.sec := by
  rcases hload : loadData inp with e | df
  · rw [show (runProcess name dob inp).2 = some e by
      simp only [runProcess, hload]] at h
    exact Option.noConfusion h
  rcases hclean : cleanData df with e | cdf
  · rw [show (runProcess name dob inp).2 = some e by
      simp only [runProcess, hload, hclean]] at h
    exact Option.noConfusion h
  rw [runProcess_ok_spec name dob inp df cdf hload hclean]
  refine ⟨rfl, 0, (validateInputs cdf).1.map (enrichRow name dob),
    rfl, rfl, rfl, rfl, ?_⟩
  intro r hr
  rcases List.mem_map.mp hr with ⟨f, _, hf⟩
  subst hf
  exact ⟨rfl, rfl, rfl, rfl, rfl, rfl⟩

/-- The source file of the witness run. -/
def rawC10 : Table :=
  { header := ["Start", "Finish", "Activity", "Type", "Details"]
    rows := [[Cell.time ⟨31, 28800⟩, Cell.time ⟨31, 30000⟩, Cell.str "Feeding",
              Cell.str "Bottle", Cell.str "150ml"],
             [Cell.time ⟨32, 82800⟩, Cell.time ⟨32, 84000⟩, Cell.str "Feeding",
              Cell.str "Right", Cell.str "80ml"]] }

def inpC10 : LoadInput := { fileExists := true, suffix := ".xlsx", raw := rawC10 }

/-- Witness for C10: a concrete two-row run completes without an
error, so its validated and transformed outputs alias one enriched
frame. -/
theorem C10_validated_output_is_transformed_output_witness :
    (runProcess "Maya" 0 inpC10).2 = none
    ∧ (((runProcess "Maya" 0 inpC10).1.validatedRef
          = (runProcess "Maya" 0 inpC10).1.transformedRef)
      ∧ ∃ i rows,
          (runProcess "Maya" 0 inpC10).1.validatedRef = some i
          ∧ (runProcess "Maya" 0 inpC10).1.heap.get? i = some (.enriched rows)
          ∧ (runProcess "Maya" 0 inpC10).1.dailyData = some (dailyData rows)
          ∧ (runProcess "Maya" 0 inpC10).1.weeklyData = some (weeklyData rows)
          ∧ ∀ r ∈ rows, r.name = "Maya"
              ∧ r.age_in_days = ageInDays r.feed_start_time 0
              ∧ r.age_in_weeks = ageInWeeks r.feed_start_time 0
              ∧ r.time = r.feed_start_time.sec
              ∧ r.time_str = fmt12 r.feed_start_time.sec
              ∧ r.night_or_day = nightOrDay r.feed_start_time.sec) :=
  ⟨by rfl, C10_validated_output_is_transformed_output "Maya" 0 inpC10 (by rfl)⟩

/-! ### C8: the weekly period text label -/

/-- Relabelling a weekly row changes neither its group key nor its
volume, so the per-week `transform('sum')` totals are the same before
and after the labels are attached. -/
lemma weekTotalIn_weeklyData (es : List ERow) (wk : Int) :
    weekTotalIn (weeklyData es) wk = weekTotalIn (weeklyRows0 es) wk := by
  unfold weeklyData weekTotalIn
  rw [List.filter_map, List.map_map]
  rfl

/-- C8 (amended): every weekly period row is labelled
`"<volume>mL<br>(<percentage>%)"`, with the volume formatted with
thousands separators and the percentage the period volume over the
total of all periods of the same `age_in_week`, times 100, rounded to
the nearest whole number (ties to even), whenever that week total is
positive. -/
theorem C8_weekly_label_format (es : List ERow) (w : WeeklyRow)
    (hw : w ∈ weeklyData es)
    (hpos : 0 < weekTotalIn (weeklyData es) w.age_in_weeks) :
    w.text_label
      = fmtCommas w.total_feed_volume_ml ++ "mL<br>("
        ++ toString (roundHalfEven ((w.total_feed_volume_ml : ℚ)
              / (weekTotalIn (weeklyData es) w.age_in_weeks : ℚ) * 100))
        ++ "%)" := by
  rw [weekTotalIn_weeklyData] at hpos ⊢
  unfold weeklyData at hw
  rcases List.mem_map.mp hw with ⟨w0, _, hw0⟩
  subst hw0
  have hpos2 : 0 < weekTotalIn (weeklyRows0 es) w0.age_in_weeks := hpos
  show textLabel w0.total_feed_volume_ml (weekTotalIn (weeklyRows0 es) w0.age_in_weeks)
      = _
  unfold textLabel pctStr
  rw [if_neg (by omega)]

instance : Inhabited WeeklyRow := ⟨⟨0, "", "", 0, 0, ""⟩⟩

lemma headI_mem {α : Type} [Inhabited α] (l : List α) (h : l ≠ []) : l.headI ∈ l := by
  cases l with
  | nil => exact absurd rfl h
  | cons a as => exact List.mem_cons_self a as

/-- Two enriched rows of one age-week, 850 mL at night and 520 mL by
day (total 1370). -/
def exW : List ERow :=
  [{ feed_start_time := ⟨28, 82800⟩, activity := "Feeding", type := "Bottle",
     feed_volume_ml := 850, units := "ml", name := "Maya", age_in_weeks := 4,
     age_in_days := 28, time := 82800, time_str := "11:00 PM", night_or_day := "Night" },
   { feed_start_time := ⟨29, 36000⟩, activity := "Feeding", type := "Bottle",
     feed_volume_ml := 520, units := "ml", name := "Maya", age_in_weeks := 4,
     age_in_days := 29, time := 36000, time_str := "10:00 AM", night_or_day := "Day" }]

lemma roundHalfEven_38 : roundHalfEven ((520 : ℚ) / 1370 * 100) = 38 := by
  rw [show ((520 : ℚ) / 1370 * 100) = 5200 / 137 by norm_num]
  have hf : ⌊(5200 / 137 : ℚ)⌋ = 37 := by
    rw [Int.floor_eq_iff]
    constructor <;> norm_num
  unfold roundHalfEven
  rw [hf]
  norm_num

lemma roundHalfEven_62 : roundHalfEven ((850 : ℚ) / 1370 * 100) = 62 := by
  rw [show ((850 : ℚ) / 1370 * 100) = 8500 / 137 by norm_num]
  have hf : ⌊(8500 / 137 : ℚ)⌋ = 62 := by
    rw [Int.floor_eq_iff]
    constructor <;> norm_num
  unfold roundHalfEven
  rw [hf]
  norm_num

lemma textLabel_520 : textLabel 520 1370 = "520mL<br>(38%)" := by
  unfold textLabel pctStr
  rw [if_neg (by decide)]
  rw [show ((520 : Int) : ℚ) / ((1370 : Int) : ℚ) * 100 = (520 : ℚ) / 1370 * 100 by
    norm_num]
  rw [roundHalfEven_38]
  rfl

lemma textLabel_850 : textLabel 850 1370 = "850mL<br>(62%)" := by
  unfold textLabel pctStr
  rw [if_neg (by decide)]
  rw [show ((850 : Int) : ℚ) / ((1370 : Int) : ℚ) * 100 = (850 : ℚ) / 1370 * 100 by
    norm_num]
  rw [roundHalfEven_62]
  rfl

/-- C8 counterexample: on this week the 850 mL night period carries
the label `"850mL<br>(62%)"` - the separator is the `<br>` tag, not
the space of the claimed `"850mL (62%)"` - though the percentage is
indeed 850 / 1370 rounded to 62. -/
theorem C8_counterexample :
    ((weeklyData exW).map (fun w => (w.age_in_weeks, w.night_or_day, w.total_feed_volume_ml)))
      = [(4, "Day", 520), (4, "Night", 850)]
    ∧ ((weeklyData exW).map (fun w => w.text_label))
      = ["520mL<br>(38%)", "850mL<br>(62%)"]
    ∧ ("850mL<br>(62%)" : String) ≠ "850mL (62%)" := by
  refine ⟨by decide, ?_, by decide⟩
  rw [show (weeklyData exW).map (fun w => w.text_label)
      = [textLabel 520 1370, textLabel 850 1370] from rfl,
    textLabel_520, textLabel_850]

/-- Witness for the amended C8 at the same concrete week. -/
theorem C8_weekly_label_format_witness :
    ((weeklyData exW).headI ∈ weeklyData exW
      ∧ 0 < weekTotalIn (weeklyData exW) (weeklyData exW).headI.age_in_weeks)
    ∧ (weeklyData exW).headI.text_label
      = fmtCommas (weeklyData exW).headI.total_feed_volume_ml ++ "mL<br>("
        ++ toString (roundHalfEven (((weeklyData exW).headI.total_feed_volume_ml : ℚ)
              / (weekTotalIn (weeklyData exW) (weeklyData exW).headI.age_in_weeks : ℚ)
              * 100))
        ++ "%)" :=
  ⟨⟨headI_mem _ (by decide), by decide⟩,
    C8_weekly_label_format exW (weeklyData exW).headI
      (headI_mem _ (by decide)) (by decide)⟩

/-! ### C2: the daily aggregate -/

lemma foldl_min_le_foldl_max (l : List ERow) (a b : Int) (hab : a ≤ b) :
    l.foldl (fun x r => min x (dayOf r)) a ≤ l.foldl (fun x r => max x (dayOf r)) b := by
  induction l generalizing a b with
  | nil => exact hab
  | cons r rs ih =>
    exact ih (min a (dayOf r)) (max b (dayOf r))
      (le_trans (min_le_left _ _) (le_trans hab (le_max_left _ _)))

lemma minD_le_maxD (es : List ERow) (h : es ≠ []) : minD es ≤ maxD es := by
  cases es with
  | nil => exact absurd rfl h
  | cons r rs => exact foldl_min_le_foldl_max rs (dayOf r) (dayOf r) le_rfl

lemma dailyBins_eq (es : List ERow) (h : es ≠ []) :
    dailyBins es
      = (List.range ((maxD es - minD es).toNat + 1)).map (fun i : Nat => minD es + (i : Int)) := by
  cases es with
  | nil => exact absurd rfl h
  | cons r rs => rfl

lemma binsDropLast_eq (es : List ERow) (h : es ≠ []) :
    (dailyBins es).dropLast
      = (List.range ((maxD es - minD es).toNat)).map (fun i : Nat => minD es + (i : Int)) := by
  rw [dailyBins_eq es h,
    show (maxD es - minD es).toNat + 1 = Nat.succ ((maxD es - minD es).toNat) from rfl,
    List.range_succ, List.map_append]
  simp

lemma mem_binsDropLast (es : List ERow) (h : es ≠ []) (d : Int) :
    d ∈ (dailyBins es).dropLast ↔ (minD es ≤ d ∧ d < maxD es) := by
  have hmm := minD_le_maxD es h
  rw [binsDropLast_eq es h]
  simp only [List.mem_map, List.mem_range]
  constructor
  · rintro ⟨i, hi, rfl⟩
    omega
  · rintro ⟨h1, h2⟩
    exact ⟨(d - minD es).toNat, by omega, by omega⟩

lemma nodup_binsDropLast (es : List ERow) (h : es ≠ []) :
    ((dailyBins es).dropLast).Nodup := by
  rw [binsDropLast_eq es h]
  refine List.Nodup.map ?_ (List.nodup_range _)
  intro i j hij
  have h2 : minD es + (i : Int) = minD es + (j : Int) := hij
  omega

/-- The list the daily branch sorts: one aggregated bin per day of the
range except the last, each already carrying `age_in_months`. -/
lemma dailyData_eq_sort (es : List ERow) :
    dailyData es
      = List.insertionSort leDaily
          (((dailyBins es).dropLast.map (binRow es)).map addMonths) := by
  unfold dailyData
  rw [List.map_dropLast]

lemma mem_dailyData (es : List ERow) (r : DailyRow) :
    r ∈ dailyData es
      ↔ ∃ d ∈ (dailyBins es).dropLast, addMonths (binRow es d) = r := by
  rw [dailyData_eq_sort, List.mem_insertionSort]
  simp only [List.map_map, List.mem_map, Function.comp_apply]

lemma dailyData_days_perm (es : List ERow) :
    List.Perm ((dailyData es).map (fun r => r.day)) ((dailyBins es).dropLast) := by
  rw [dailyData_eq_sort]
  have hp := (List.perm_insertionSort leDaily
    (((dailyBins es).dropLast.map (binRow es)).map addMonths)).map (fun r => r.day)
  refine hp.trans ?_
  rw [List.map_map, List.map_map]
  rw [show (((fun r : DailyRow => r.day) ∘ addMonths) ∘ binRow es) = fun d : Int => d
    from rfl]
  rw [List.map_id']

/-- C2 (amended): for a non-empty enriched set the daily aggregate has
exactly one row per calendar day of the contiguous range from the
earliest through the latest day present - gap days with no records
included, with volume sum 0 and feed count 0 - except the
chronologically last day, which is dropped unconditionally; the rows
are sorted ascending by `age_in_days` (rows of empty days, whose
fields are missing, last) and each row carries the sum, count and mean
of its day's `feed_volume_ml` and the name and age fields of the first
record of its day. -/
theorem C2_daily_aggregate_drops_last_day (es : List ERow) (h : es ≠ []) :
    ((dailyData es).length = (maxD es - minD es).toNat
      ∧ ((dailyData es).map (fun r => r.day)).Nodup
      ∧ (∀ d : Int, (∃ r ∈ dailyData es, r.day = d) ↔ (minD es ≤ d ∧ d < maxD es)))
  ∧ List.Sorted leDaily (dailyData es)
  ∧ (∀ r ∈ dailyData es,
      r.daily_feed_volume_ml
          = ((es.filter (fun x => dayOf x = r.day)).map (fun x => x.feed_volume_ml)).sum
      ∧ r.feeds_per_day = (es.filter (fun x => dayOf x = r.day)).length
      ∧ r.name = (es.filter (fun x => dayOf x = r.day)).head?.map (fun x => x.name)
      ∧ r.age_in_days
          = (es.filter (fun x => dayOf x = r.day)).head?.map (fun x => x.age_in_days)
      ∧ r.age_in_weeks
          = (es.filter (fun x => dayOf x = r.day)).head?.map (fun x => x.age_in_weeks)
      ∧ r.average_intake_per_feed
          = (if r.feeds_per_day = 0 then none
             else some ((r.daily_feed_volume_ml : ℚ) / (r.feeds_per_day : ℚ)))
      ∧ r.age_in_months = r.age_in_days.map (fun a => (a : ℚ) / (30.4375 : ℚ))) := by
  refine ⟨⟨?_, ?_, ?_⟩, ?_, ?_⟩
  · have hlen := (dailyData_days_perm es).length_eq
    rw [List.length_map, binsDropLast_eq es h, List.length_map, List.length_range] at hlen
    exact hlen
  · exact ((dailyData_days_perm es).nodup_iff).mpr (nodup_binsDropLast es h)
  · intro d
    have hmm : d ∈ (dailyData es).map (fun r => r.day)
        ↔ ∃ r ∈ dailyData es, r.day = d := List.mem_map
    rw [← hmm, (dailyData_days_perm es).mem_iff]
    exact mem_binsDropLast es h d
  · rw [dailyData_eq_sort]
    exact List.sorted_insertionSort leDaily _
  · intro r hr
    rcases (mem_dailyData es r).mp hr with ⟨d, _, rfl⟩
    exact ⟨rfl, rfl, rfl, rfl, rfl, rfl, rfl⟩

/-- Enriched rows on days 0, 2 and 3 with a gap at day 1 (dates are
days from an epoch; ages relative to a birth 31 days before it). -/
def exG : List ERow :=
  [{ feed_start_time := ⟨0, 28800⟩, activity := "Feeding", type := "Bottle",
     feed_volume_ml := 150, units := "ml", name := "Maya", age_in_weeks := 4,
     age_in_days := 31, time := 28800, time_str := "08:00 AM", night_or_day := "Day" },
   { feed_start_time := ⟨2, 32400⟩, activity := "Feeding", type := "Bottle",
     feed_volume_ml := 100, units := "ml", name := "Maya", age_in_weeks := 4,
     age_in_days := 33, time := 32400, time_str := "09:00 AM", night_or_day := "Day" },
   { feed_start_time := ⟨3, 25200⟩, activity := "Feeding", type := "Bottle",
     feed_volume_ml := 90, units := "ml", name := "Maya", age_in_weeks := 4,
     age_in_days := 34, time := 25200, time_str := "07:00 AM", night_or_day := "Day" }]

/-- C2 counterexample: the days present in `exG` are 0, 2 and 3, so
the claim predicts one aggregate row each for days 0 and 2; the code
instead produces three rows - the gap day 1, which is present in no
record, gets a row with feed count 0 (and, having no age, is sorted to
the end), while the present day 3 is the dropped one. -/
theorem C2_counterexample :
    ((dailyData exG).map (fun r => (r.day, r.feeds_per_day)) = [(0, 1), (2, 1), (1, 0)])
    ∧ ((exG.map dayOf).eraseDups = [0, 2, 3])
    ∧ ¬ (∀ r ∈ dailyData exG, r.day ∈ exG.map dayOf) := by
  refine ⟨by decide, by decide, by decide⟩

/-- Witness for the amended C2 at the concrete gap example. -/
theorem C2_daily_aggregate_drops_last_day_witness :
    exG ≠ []
    ∧ (((dailyData exG).length = (maxD exG - minD exG).toNat
        ∧ ((dailyData exG).map (fun r => r.day)).Nodup
        ∧ (∀ d : Int, (∃ r ∈ dailyData exG, r.day = d) ↔ (minD exG ≤ d ∧ d < maxD exG)))
      ∧ List.Sorted leDaily (dailyData exG)
      ∧ (∀ r ∈ dailyData exG,
          r.daily_feed_volume_ml
              = ((exG.filter (fun x => dayOf x = r.day)).map (fun x => x.feed_volume_ml)).sum
          ∧ r.feeds_per_day = (exG.filter (fun x => dayOf x = r.day)).length
          ∧ r.name = (exG.filter (fun x => dayOf x = r.day)).head?.map (fun x => x.name)
          ∧ r.age_in_days
              = (exG.filter (fun x => dayOf x = r.day)).head?.map (fun x => x.age_in_days)
          ∧ r.age_in_weeks
              = (exG.filter (fun x => dayOf x = r.day)).head?.map (fun x => x.age_in_weeks)
          ∧ r.average_intake_per_feed
              = (if r.feeds_per_day = 0 then none
                 else some ((r.daily_feed_volume_ml : ℚ) / (r.feeds_per_day : ℚ)))
          ∧ r.age_in_months = r.age_in_days.map (fun a => (a : ℚ) / (30.4375 : ℚ)))) :=
  ⟨by decide, C2_daily_aggregate_drops_last_day exG (by decide)⟩

end BabyPipeline
